import Mathlib

/-!
Verification development for the go-log logging library.

Shallow embedding of the parts of the repository the claims concern:
* the per-subsystem level registry (`levels.go`, `setup.go`),
* the mirror writer / fan-out broadcaster (`writer.go`),
* the pipe reader (`pipe.go`).

Go byte buffers are modelled abstractly by an identifier plus a size,
since the writer code only ever calls `len(b)` and passes buffers through
unchanged.  Go maps returned to callers are modelled through a small heap
of map objects so that aliasing between a returned map and internal state
is expressible.  Concurrency is modelled by an explicit interleaving step
function over the state of all goroutines; channels are modelled by their
contents plus a closed flag.
-/

/-- Log severity levels, from `zapcore.Level` (external collaborator) as
re-exported by `levels.go` (`LevelDebug` .. `LevelFatal`). -/
inductive LogLevel where
  | debug
  | info
  | warn
  | error
  | dpanic
  | panic
  | fatal
deriving DecidableEq, Repr

/-- `zapcore.Level.String()`: the lower-case name of a level, used by
`GetLogLevel` and `GetAllLogLevels` in `levels.go`. -/
def levelName : LogLevel → String
  | .debug => "debug"
  | .info => "info"
  | .warn => "warn"
  | .error => "error"
  | .dpanic => "dpanic"
  | .panic => "panic"
  | .fatal => "fatal"

/-- `LevelFromString` in `levels.go`, which delegates to
`zapcore.Level.Set`: accepts the lower-case and upper-case spellings of the
seven level names (and the empty string, which zapcore maps to Info). -/
def levelFromString (level : String) : Except String LogLevel :=
  if level = "debug" ∨ level = "DEBUG" then .ok .debug
  else if level = "info" ∨ level = "INFO" ∨ level = "" then .ok .info
  else if level = "warn" ∨ level = "WARN" then .ok .warn
  else if level = "error" ∨ level = "ERROR" then .ok .error
  else if level = "dpanic" ∨ level = "DPANIC" then .ok .dpanic
  else if level = "panic" ∨ level = "PANIC" then .ok .panic
  else if level = "fatal" ∨ level = "FATAL" then .ok .fatal
  else .error ("unrecognized level: " ++ level)

/-- `ErrNoSuchLogger` from `setup.go`. -/
def errNoSuchLogger : String := "Error: No such logger"

/-- Association-list lookup, modelling reads of a Go `map[string]...`. -/
def assocGet (l : List (String × LogLevel)) (n : String) : Option LogLevel :=
  match l with
  | [] => none
  | (k, v) :: rest => if k = n then some v else assocGet rest n

/-- Association-list update/insert, modelling `m[k] = v` on a Go map. -/
def assocSet (l : List (String × LogLevel)) (n : String) (v : LogLevel) :
    List (String × LogLevel) :=
  match l with
  | [] => [(n, v)]
  | (k, w) :: rest => if k = n then (k, v) :: rest else (k, w) :: assocSet rest n v

/-- The package-level registry state: the shared default level
(`defaultLevel`, declared in the setup code and read by `levels.go`), the
`levels` map of per-subsystem atomic level cells, and the names registered
in the `loggers` map. -/
structure LogState where
  defaultLevel : LogLevel
  levels : List (String × LogLevel)
  loggers : List String
deriving DecidableEq, Repr

/-- `GetLogLevel` from `levels.go`: `"*"` or `""` returns the default
level's string; otherwise the subsystem's current level string when its
cell exists, else `ErrNoSuchLogger`.  The state is returned unchanged to
record that the function mutates nothing. -/
def GetLogLevel (st : LogState) (name : String) : LogState × Except String String :=
  if name = "*" ∨ name = "" then
    (st, .ok (levelName st.defaultLevel))
  else
    match assocGet st.levels name with
    | some lvl => (st, .ok (levelName lvl))
    | none => (st, .error errNoSuchLogger)

/-- Modelled from the spec: `SetAllLoggers` (the current `setup.go` is not
in the source tree; only its callers and tests are).  Per §4.1 the
wildcard/set-all path "applies to the Default Level AND every
currently-registered subsystem". -/
def setAllLoggers (st : LogState) (lvl : LogLevel) : LogState :=
  { st with
    defaultLevel := lvl
    levels := st.levels.map (fun p => (p.1, lvl)) }

/-- Modelled from the spec: `SetLogLevel` (the current `setup.go` is not in
the source tree).  Per §4.1: parse the level text, rejecting invalid text
with no state change; `"*"` or `""` routes to the set-all path; otherwise
the subsystem's level cell is created if absent (auto-vivification) and
set.  Returns `some err` exactly when parsing failed. -/
def SetLogLevel (st : LogState) (name level : String) : LogState × Option String :=
  match levelFromString level with
  | .error e => (st, some e)
  | .ok lvl =>
    if name = "*" ∨ name = "" then
      (setAllLoggers st lvl, none)
    else
      ({ st with levels := assocSet st.levels name lvl }, none)

/-- Modelled from the spec: `getLogger` (the current `setup.go` is not in
the source tree).  Per §4.2: an existing logger is returned as is; a
first-time request creates the subsystem's level cell seeded from the
default level unless the level registry already auto-vivified one, which
must be picked up rather than overwritten.  The returned level is the
value of the cell the logger is bound to (its effective level). -/
def getLogger (st : LogState) (name : String) : LogState × LogLevel :=
  if name ∈ st.loggers then
    (st, (assocGet st.levels name).getD st.defaultLevel)
  else
    match assocGet st.levels name with
    | some lvl => ({ st with loggers := name :: st.loggers }, lvl)
    | none =>
      ({ st with
          loggers := name :: st.loggers
          levels := assocSet st.levels name st.defaultLevel },
        st.defaultLevel)

theorem assocGet_assocSet_self (l : List (String × LogLevel)) (n : String) (v : LogLevel) :
    assocGet (assocSet l n v) n = some v := by
  induction l with
  | nil => simp [assocSet, assocGet]
  | cons p rest ih =>
    by_cases h : p.1 = n
    · simp [assocSet, assocGet, h]
    · simp [assocSet, assocGet, h, ih]

theorem assocGet_map_const (l : List (String × LogLevel)) (n : String) (lvl : LogLevel) :
    assocGet (l.map (fun p => (p.1, lvl))) n = (assocGet l n).map (fun _ => lvl) := by
  induction l with
  | nil => simp [assocGet]
  | cons p rest ih =>
    by_cases h : p.1 = n
    · simp [assocGet, h]
    · simp [assocGet, h, ih]

theorem assocGet_mem (l : List (String × LogLevel)) (n : String) (v : LogLevel)
    (h : (n, v) ∈ l) : ∃ w, assocGet l n = some w := by
  induction l with
  | nil => cases h
  | cons p rest ih =>
    by_cases hk : p.1 = n
    · exact ⟨p.2, by simp [assocGet, hk]⟩
    · rcases List.mem_cons.mp h with h1 | h1
      · exact absurd (by rw [← h1]) hk
      · rcases ih h1 with ⟨w, hw⟩
        exact ⟨w, by simp [assocGet, hk, hw]⟩

/-- A Go `map[string]string` object: its current key/value entries. -/
structure StrMap where
  entries : List (String × String)
deriving DecidableEq, Repr

/-- Lookup in the entry list of a `map[string]string` object. -/
def strEntriesGet (l : List (String × String)) (k : String) : Option String :=
  match l with
  | [] => none
  | (k0, v0) :: rest => if k0 = k then some v0 else strEntriesGet rest k

/-- Update/insert in the entry list of a `map[string]string` object. -/
def strEntriesSet (l : List (String × String)) (k v : String) :
    List (String × String) :=
  match l with
  | [] => [(k, v)]
  | (k0, v0) :: rest =>
    if k0 = k then (k0, v) :: rest else (k0, v0) :: strEntriesSet rest k v

/-- Lookup in a `map[string]string` object. -/
def strMapGet (m : StrMap) (k : String) : Option String :=
  strEntriesGet m.entries k

/-- Update/insert `m[k] = v` on a `map[string]string` object. -/
def strMapSet (m : StrMap) (k v : String) : StrMap :=
  ⟨strEntriesSet m.entries k v⟩

/-- A heap of `map[string]string` objects; a reference is an index.  Used
to model whether a map returned to a caller aliases internal state. -/
structure Heap where
  objs : List StrMap
deriving DecidableEq, Repr

/-- Dereference a map reference. -/
def Heap.get (h : Heap) (r : Nat) : StrMap :=
  (h.objs.get? r).getD ⟨[]⟩

/-- `make(map[string]string, ...)` populated with `m`: allocates a fresh
object and returns its reference. -/
def Heap.alloc (h : Heap) (m : StrMap) : Heap × Nat :=
  (⟨h.objs ++ [m]⟩, h.objs.length)

/-- A caller-side mutation `h[r][k] = v` of the map object at `r`. -/
def Heap.set (h : Heap) (r : Nat) (k v : String) : Heap :=
  ⟨h.objs.set r (strMapSet (h.get r) k v)⟩

/-- `GetAllLogLevels` from `levels.go`: builds a fresh map containing the
`"*"` entry for the default level followed by every subsystem's current
level string, and returns (a reference to) that fresh map. -/
def GetAllLogLevels (st : LogState) (h : Heap) : Heap × Nat :=
  h.alloc ⟨("*", levelName st.defaultLevel) ::
    st.levels.map (fun p => (p.1, levelName p.2))⟩

/-- A sequence of caller mutations applied to the map object at `r`. -/
def applyMuts (h : Heap) (r : Nat) : List (String × String) → Heap
  | [] => h
  | (k, v) :: rest => applyMuts (h.set r k v) r rest

theorem heapGet_alloc (h : Heap) (m : StrMap) :
    (h.alloc m).1.get (h.alloc m).2 = m := by
  simp [Heap.alloc, Heap.get, List.getElem?_append_right]

theorem heapGet_alloc_lt (h : Heap) (m : StrMap) (r : Nat) (hr : r < h.objs.length) :
    (h.alloc m).1.get r = h.get r := by
  simp [Heap.alloc, Heap.get, List.getElem?_append_left hr]

theorem heapGet_set_ne (h : Heap) (r r' : Nat) (k v : String) (hne : r ≠ r') :
    (h.set r k v).get r' = h.get r' := by
  simp [Heap.set, Heap.get, List.getElem?_set_ne hne]

theorem heapGet_applyMuts_ne (h : Heap) (r r' : Nat) (muts : List (String × String))
    (hne : r ≠ r') : (applyMuts h r muts).get r' = h.get r' := by
  induction muts generalizing h with
  | nil => rfl
  | cons kv rest ih =>
    simp only [applyMuts]
    rw [ih, heapGet_set_ne _ _ _ _ _ hne]

theorem applyMuts_objs_length (h : Heap) (r : Nat) (muts : List (String × String)) :
    (applyMuts h r muts).objs.length = h.objs.length := by
  induction muts generalizing h with
  | nil => rfl
  | cons kv rest ih =>
    simp only [applyMuts]
    rw [ih]
    simp [Heap.set]

/-- A Go byte buffer, abstracted to an identity and its `len`.  The writer
code in `writer.go` only ever calls `len(b)` on a buffer and passes it
through unchanged, so contents are irrelevant to its behaviour. -/
structure Buf where
  id : Nat
  size : Nat
deriving DecidableEq, Repr

/-- `MaxWriterBuffer` from `writer.go` (512 * 1024). -/
def maxWriterBuffer : Nat := 512 * 1024

/-- `errDeadWriter` from `writer.go`. -/
def errDeadWriter : String := "writer is dead"

/-- State of the writer goroutine spawned inside `bufWriter.loop` (the
`for b := range nextCh` goroutine): either parked at the channel receive,
or returned (after a failed underlying write or after `nextCh` closed). -/
inductive WgState where
  | idle
  | exited
deriving DecidableEq, Repr

/-- The complete state of one `bufWriter` (`writer.go`): the struct fields
(`dead`, the `incoming` channel of capacity one), the locals of its `loop`
goroutine (`bufsize`, `buffered`, `nextMsg`, whether `send` is `nextCh` or
nil, whether `nextCh` was closed), whether `loop` has returned, the state
of the nested writer goroutine, whether the underlying writer was Closed,
and a ghost trace `received` of every buffer handed to the underlying
writer's `Write`. -/
structure BufWriter where
  dead : Bool
  incomingClosed : Bool
  inChan : Option Buf
  loopReturned : Bool
  bufsize : Nat
  buffered : List Buf
  nextMsg : Option Buf
  sendSet : Bool
  nextChClosed : Bool
  wg : WgState
  writerClosed : Bool
  received : List Buf
deriving DecidableEq, Repr

/-- A freshly constructed `bufWriter` (`newBufWriter`). -/
def bwInit : BufWriter :=
  { dead := false
    incomingClosed := false
    inChan := none
    loopReturned := false
    bufsize := 0
    buffered := []
    nextMsg := none
    sendSet := false
    nextChClosed := false
    wg := .idle
    writerClosed := false
    received := [] }

/-- `bufWriter.Write` from `writer.go`, at a moment when it does not
block: a dead writer closes `incoming` (if not already nil) and returns
`(0, errDeadWriter)`; otherwise the buffer is placed in the `incoming`
channel and `(len(b), nil)` is returned.  The step function only invokes
the alive branch when the capacity-one channel has room. -/
def bwWriteFn (bw : BufWriter) (b : Buf) : BufWriter × (Nat × Option String) :=
  if bw.dead then
    ({ bw with incomingClosed := true }, (0, some errDeadWriter))
  else
    ({ bw with inChan := some b }, (b.size, none))

/-- The body of the `case b, ok := <-incoming` arm of `bufWriter.loop`
for a received value `b`: if `buffered` is empty the message becomes
`nextMsg` and `send` is armed; otherwise it is appended to `buffered`,
and on exceeding `MaxWriterBuffer` the writer dies (`die` sets `dead` and
closes the underlying writer) and `nextCh` is closed. -/
def sinkRecvFn (bw : BufWriter) (b : Buf) : BufWriter :=
  if bw.buffered = [] then
    { bw with inChan := none, nextMsg := some b, sendSet := true }
  else
    let bufsize := bw.bufsize + b.size
    let buffered := bw.buffered ++ [b]
    if bufsize > maxWriterBuffer then
      { bw with inChan := none, bufsize := bufsize, buffered := buffered,
                dead := true, writerClosed := true, nextChClosed := true }
    else
      { bw with inChan := none, bufsize := bufsize, buffered := buffered }

/-- The two sequential `if` statements after `case send <- nextMsg:` in
`bufWriter.loop`: pop the head of `buffered` into `nextMsg` if any, then,
if `buffered` is (now) empty, reset it and nil out `nextMsg` and `send`. -/
def loopPostSend (bw : BufWriter) : BufWriter :=
  let bw1 :=
    match bw.buffered with
    | [] => bw
    | nm :: rest =>
      { bw with nextMsg := some nm, buffered := rest, bufsize := bw.bufsize - nm.size }
  if bw1.buffered = [] then
    { bw1 with nextMsg := none, sendSet := false }
  else
    bw1

/-- The rendezvous `send <- nextMsg` together with the writer goroutine's
`bw.writer.Write(b)` on the received buffer: the underlying writer
receives `m`; on error the writer goroutine logs, calls `die` (setting
`dead` and closing the underlying writer) and returns; the loop runs its
post-send bookkeeping. -/
def sinkDeliverFn (bw : BufWriter) (m : Buf) (ok : Bool) : BufWriter :=
  let bw1 := { bw with received := bw.received ++ [m] }
  let bw2 :=
    if ok then bw1
    else { bw1 with dead := true, writerClosed := true, wg := .exited }
  loopPostSend bw2

/-- Program counter of the `MirrorWriter.logRoutine` goroutine: parked at
the `select`, or part-way through `broadcastMessage(b)` at writer index
`i` with the `dropped` flag. -/
inductive LogPC where
  | idle
  | bcast (b : Buf) (i : Nat) (dropped : Bool)
deriving DecidableEq, Repr

/-- The complete state of a `MirrorWriter` system: the `msgSync` channel
contents (capacity 64), the `writers` slice (whose entries are indices
into `sinkPool`, or `none` for entries nilled by `broadcastMessage`), the
pool of every `bufWriter` created, the `active` flag, and the
`logRoutine` program counter. -/
structure SysState where
  msgQueue : List Buf
  writers : List (Option Nat)
  sinkPool : List BufWriter
  active : Bool
  pc : LogPC
deriving DecidableEq, Repr

/-- `NewMirrorWriter()`: empty channel, no writers, inactive. -/
def initSys : SysState :=
  { msgQueue := []
    writers := []
    sinkPool := []
    active := false
    pc := .idle }

/-- `MirrorWriter.Write` from `writer.go`: place the buffer in `msgSync`
and return `(len(b), nil)`, unconditionally -- no sink failure or
overflow can reach this return. -/
def mwWrite (s : SysState) (b : Buf) : SysState × (Nat × Option String) :=
  ({ s with msgQueue := s.msgQueue ++ [b] }, (b.size, none))

/-- One interleaving event of the mirror-writer system: a caller write, a
`logRoutine` action (taking a message, accepting a new writer, one
iteration of `broadcastMessage`, finishing a broadcast incl.
`clearDeadWriters`), or an action of sink `k`'s goroutines. -/
inductive Ev where
  | callerWrite (b : Buf)
  | takeMsg
  | addWriter
  | bcastStep
  | bcastDone
  | sinkRecv (k : Nat)
  | sinkRecvClosed (k : Nat)
  | sinkDeliver (k : Nat) (ok : Bool)
  | sinkWgExit (k : Nat)
deriving DecidableEq, Repr

/-- The interleaving step function: `some s2` when the event is enabled in
`s` (its goroutine is at that point and its channel operation would not
block), `none` otherwise. -/
def stepFn (s : SysState) (e : Ev) : Option SysState :=
  match e with
  | .callerWrite b =>
    if s.msgQueue.length < 64 then some (mwWrite s b).1 else none
  | .takeMsg =>
    match s.pc, s.msgQueue with
    | .idle, b :: rest => some { s with msgQueue := rest, pc := .bcast b 0 false }
    | _, _ => none
  | .addWriter =>
    match s.pc with
    | .idle =>
      some { s with
        writers := s.writers ++ [some s.sinkPool.length]
        sinkPool := s.sinkPool ++ [bwInit]
        active := true }
    | _ => none
  | .bcastStep =>
    match s.pc with
    | .bcast b i d =>
      match s.writers.get? i with
      | some (some k) =>
        match s.sinkPool.get? k with
        | some bw =>
          if bw.dead then
            some { s with
              sinkPool := s.sinkPool.set k (bwWriteFn bw b).1
              writers := s.writers.set i none
              pc := .bcast b (i + 1) true }
          else if bw.inChan = none ∧ bw.incomingClosed = false then
            some { s with
              sinkPool := s.sinkPool.set k (bwWriteFn bw b).1
              pc := .bcast b (i + 1) d }
          else
            none
        | none => none
      | _ => none
    | .idle => none
  | .bcastDone =>
    match s.pc with
    | .bcast _ i d =>
      if i = s.writers.length then
        if d then
          let ws := s.writers.filter (fun w => w.isSome)
          some { s with
            writers := ws
            active := if ws = [] then false else s.active
            pc := .idle }
        else
          some { s with pc := .idle }
      else
        none
    | .idle => none
  | .sinkRecv k =>
    match s.sinkPool.get? k with
    | some bw =>
      match bw.inChan with
      | some b =>
        if bw.loopReturned then none
        else some { s with sinkPool := s.sinkPool.set k (sinkRecvFn bw b) }
      | none => none
    | none => none
  | .sinkRecvClosed k =>
    match s.sinkPool.get? k with
    | some bw =>
      if bw.inChan = none ∧ bw.incomingClosed = true ∧ bw.loopReturned = false then
        some { s with sinkPool := s.sinkPool.set k { bw with loopReturned := true } }
      else
        none
    | none => none
  | .sinkDeliver k ok =>
    match s.sinkPool.get? k with
    | some bw =>
      match bw.nextMsg with
      | some m =>
        if bw.sendSet = true ∧ bw.wg = .idle ∧ bw.nextChClosed = false ∧
            bw.loopReturned = false then
          some { s with sinkPool := s.sinkPool.set k (sinkDeliverFn bw m ok) }
        else
          none
      | none => none
    | none => none
  | .sinkWgExit k =>
    match s.sinkPool.get? k with
    | some bw =>
      if bw.nextChClosed = true ∧ bw.wg = .idle then
        some { s with sinkPool := s.sinkPool.set k { bw with wg := .exited } }
      else
        none
    | none => none

/-- Run a list of events from a state; `none` if any event is not enabled
where it occurs. -/
def runEvents (s : SysState) : List Ev → Option SysState
  | [] => some s
  | e :: evs =>
    match stepFn s e with
    | some s2 => runEvents s2 evs
    | none => none

/-- The states of the mirror-writer system reachable from a fresh
`NewMirrorWriter()` by some interleaving of caller writes, writer
registrations and goroutine steps. -/
def Reachable (s : SysState) : Prop :=
  ∃ evs, runEvents initSys evs = some s


theorem get?_some_lt {α : Type} {l : List α} {i : Nat} {x : α} (h : l.get? i = some x) :
    i < l.length := by
  by_contra hc
  rw [List.get?_eq_getElem?, List.getElem?_eq_none (Nat.le_of_not_lt hc)] at h
  cases h

theorem get?_some_ne_nil {α : Type} {l : List α} {i : Nat} {x : α}
    (h : l.get? i = some x) : l ≠ [] := by
  intro hc
  subst hc
  simp [List.get?] at h

theorem set_ne_nil {α : Type} {l : List α} (i : Nat) (x : α) (h : l ≠ []) :
    l.set i x ≠ [] := by
  rw [← List.length_pos] at h ⊢
  simpa using h

theorem get?_set_self_lt {α : Type} {l : List α} {i : Nat} (x : α) (h : i < l.length) :
    (l.set i x).get? i = some x := by
  rw [List.get?_eq_getElem?, List.getElem?_set_eq_of_lt _ h]

theorem get?_set_ne {α : Type} {l : List α} {i j : Nat} (x : α) (h : i ≠ j) :
    (l.set i x).get? j = l.get? j := by
  rw [List.get?_eq_getElem?, List.getElem?_set_ne h, ← List.get?_eq_getElem?]

theorem poolP_set {α : Type} {P : α → Prop} {l : List α} {k : Nat} {x : α}
    (hl : ∀ j y, l.get? j = some y → P y) (hx : P x) :
    ∀ j y, (l.set k x).get? j = some y → P y := by
  intro j y h
  by_cases hj : k = j
  · subst hj
    by_cases hk : k < l.length
    · rw [get?_set_self_lt x hk] at h
      cases h
      exact hx
    · rw [List.set_eq_of_length_le (Nat.le_of_not_lt hk)] at h
      exact hl _ _ h
  · rw [get?_set_ne x hj] at h
    exact hl _ _ h

theorem poolP_append {α : Type} {P : α → Prop} {l : List α} {x : α}
    (hl : ∀ j y, l.get? j = some y → P y) (hx : P x) :
    ∀ j y, (l ++ [x]).get? j = some y → P y := by
  intro j y h
  by_cases hj : j < l.length
  · rw [List.get?_eq_getElem?, List.getElem?_append_left hj, ← List.get?_eq_getElem?] at h
    exact hl _ _ h
  · rw [List.get?_eq_getElem?, List.getElem?_append_right (Nat.le_of_not_lt hj)] at h
    cases hd : j - l.length with
    | zero =>
      rw [hd] at h
      simp at h
      subst h
      exact hx
    | succ n =>
      rw [hd] at h
      simp at h

/-- Invariant of a single `bufWriter`: its `buffered` queue stays empty
with zero `bufsize` (the loop's buffering branch is unreachable), a dead
writer has had its underlying writer closed, and a dead writer's nested
goroutine has exited or its `nextCh` is closed. -/
def SinkInv (bw : BufWriter) : Prop :=
  bw.buffered = [] ∧ bw.bufsize = 0 ∧
  (bw.dead = true → bw.writerClosed = true) ∧
  (bw.dead = true → bw.wg = .exited ∨ bw.nextChClosed = true)

/-- System invariant: the `active` flag is set exactly when the `writers`
slice is nonempty, a broadcast that has already dropped a writer is over a
nonempty slice, and every pooled sink satisfies `SinkInv`. -/
def SysInv (s : SysState) : Prop :=
  (s.active = true ↔ s.writers ≠ []) ∧
  (∀ b i, s.pc = .bcast b i true → s.writers ≠ []) ∧
  (∀ k bw, s.sinkPool.get? k = some bw → SinkInv bw)

theorem sinkInv_init : SinkInv bwInit := by
  refine ⟨rfl, rfl, ?_, ?_⟩ <;> intro h <;> simp [bwInit] at h

theorem sinkInv_bwWrite {bw : BufWriter} (b : Buf) (h : SinkInv bw) :
    SinkInv (bwWriteFn bw b).1 := by
  obtain ⟨h1, h2, h3, h4⟩ := h
  by_cases hd : bw.dead = true
  · refine ⟨?_, ?_, ?_, ?_⟩ <;> simp [bwWriteFn, hd, h1, h2]
    · exact h3 hd
    · exact h4 hd
  · refine ⟨?_, ?_, ?_, ?_⟩ <;> simp [bwWriteFn, hd, h1, h2]

theorem sinkInv_recv {bw : BufWriter} (b : Buf) (h : SinkInv bw) :
    SinkInv (sinkRecvFn bw b) := by
  obtain ⟨h1, h2, h3, h4⟩ := h
  refine ⟨?_, ?_, ?_, ?_⟩ <;> simp [sinkRecvFn, h1, h2]
  · exact h3
  · exact h4

theorem sinkInv_deliver {bw : BufWriter} (m : Buf) (ok : Bool) (h : SinkInv bw) :
    SinkInv (sinkDeliverFn bw m ok) := by
  obtain ⟨h1, h2, h3, h4⟩ := h
  cases ok with
  | true =>
    refine ⟨?_, ?_, ?_, ?_⟩ <;> simp [sinkDeliverFn, loopPostSend, h1, h2]
    · exact h3
    · exact h4
  | false =>
    refine ⟨?_, ?_, ?_, ?_⟩ <;> simp [sinkDeliverFn, loopPostSend, h1, h2]

theorem sinkInv_loopRet {bw : BufWriter} (h : SinkInv bw) :
    SinkInv { bw with loopReturned := true } := by
  obtain ⟨h1, h2, h3, h4⟩ := h
  refine ⟨?_, ?_, ?_, ?_⟩ <;> simp [h1, h2]
  · exact h3
  · exact h4

theorem sinkInv_wgExit {bw : BufWriter} (h : SinkInv bw) :
    SinkInv { bw with wg := .exited } := by
  obtain ⟨h1, h2, h3, h4⟩ := h
  refine ⟨?_, ?_, ?_, ?_⟩ <;> simp [h1, h2]
  · exact h3

theorem sysInv_step {s s2 : SysState} {e : Ev} (hi : SysInv s) (h : stepFn s e = some s2) :
    SysInv s2 := by
  obtain ⟨h1, h2, h3⟩ := hi
  cases e with
  | callerWrite b =>
    simp only [stepFn, mwWrite] at h
    split at h
    · injection h with h
      subst h
      exact ⟨h1, h2, h3⟩
    · cases h
  | takeMsg =>
    simp only [stepFn] at h
    split at h
    next b rest hpc hq =>
      injection h with h
      subst h
      refine ⟨h1, ?_, h3⟩
      intro b2 i hb
      simp at hb
    next hno =>
      cases h
  | addWriter =>
    simp only [stepFn] at h
    split at h
    next hpc =>
      injection h with h
      subst h
      refine ⟨?_, ?_, ?_⟩
      · constructor
        · intro _
          simp
        · intro _
          rfl
      · intro b i hb
        rw [hpc] at hb
        simp at hb
      · exact poolP_append h3 sinkInv_init
    next =>
      cases h
  | bcastStep =>
    simp only [stepFn] at h
    split at h
    next b i d hpc =>
      split at h
      next k hw =>
        split at h
        next bw hk =>
          split at h
          next hdead =>
            injection h with h
            subst h
            have hne := get?_some_ne_nil hw
            have hact := h1.mpr hne
            refine ⟨?_, ?_, ?_⟩
            · exact ⟨fun _ => set_ne_nil _ _ hne, fun _ => hact⟩
            · intro b2 i2 hb
              exact set_ne_nil _ _ hne
            · exact poolP_set h3 (sinkInv_bwWrite b (h3 _ _ hk))
          next hndead =>
            split at h
            · injection h with h
              subst h
              refine ⟨h1, ?_, ?_⟩
              · intro b2 i2 hb
                injection hb with hb1 hb2 hb3
                subst hb3
                exact h2 b i hpc
              · exact poolP_set h3 (sinkInv_bwWrite b (h3 _ _ hk))
            · cases h
        next =>
          cases h
      next hw =>
        cases h
    next hpc =>
      cases h
  | bcastDone =>
    simp only [stepFn] at h
    split at h
    next b i d hpc =>
      split at h
      next hlen =>
        split at h
        next hd =>
          subst hd
          injection h with h
          subst h
          refine ⟨?_, ?_, h3⟩
          · by_cases hws : s.writers.filter (fun w => w.isSome) = []
            · simp [hws]
            · have hact : s.active = true := h1.mpr (h2 b i hpc)
              simp [hws, hact]
          · intro b2 i2 hb
            simp at hb
        next hd =>
          injection h with h
          subst h
          refine ⟨h1, ?_, h3⟩
          intro b2 i2 hb
          simp at hb
      next =>
        cases h
    next =>
      cases h
  | sinkRecv k =>
    simp only [stepFn] at h
    split at h
    next bw hk =>
      split at h
      next b hin =>
        split at h
        next =>
          cases h
        next =>
          injection h with h
          subst h
          exact ⟨h1, h2, poolP_set h3 (sinkInv_recv b (h3 _ _ hk))⟩
      next =>
        cases h
    next =>
      cases h
  | sinkRecvClosed k =>
    simp only [stepFn] at h
    split at h
    next bw hk =>
      split at h
      · injection h with h
        subst h
        exact ⟨h1, h2, poolP_set h3 (sinkInv_loopRet (h3 _ _ hk))⟩
      · cases h
    next =>
      cases h
  | sinkDeliver k ok =>
    simp only [stepFn] at h
    split at h
    next bw hk =>
      split at h
      next m hm =>
        split at h
        · injection h with h
          subst h
          exact ⟨h1, h2, poolP_set h3 (sinkInv_deliver m ok (h3 _ _ hk))⟩
        · cases h
      next =>
        cases h
    next =>
      cases h
  | sinkWgExit k =>
    simp only [stepFn] at h
    split at h
    next bw hk =>
      split at h
      · injection h with h
        subst h
        exact ⟨h1, h2, poolP_set h3 (sinkInv_wgExit (h3 _ _ hk))⟩
      · cases h
    next =>
      cases h

theorem get?_append_left {α : Type} {l : List α} {x : α} {k : Nat} (h : k < l.length) :
    (l ++ [x]).get? k = l.get? k := by
  rw [List.get?_eq_getElem?, List.getElem?_append_left h, ← List.get?_eq_getElem?]

theorem sysInv_init : SysInv initSys := by
  refine ⟨?_, ?_, ?_⟩
  · simp [initSys]
  · intro b i hb
    simp [initSys] at hb
  · intro k bw hk
    simp [initSys] at hk

theorem sysInv_run {s s2 : SysState} (hi : SysInv s) {evs : List Ev}
    (h : runEvents s evs = some s2) : SysInv s2 := by
  induction evs generalizing s with
  | nil =>
    simp only [runEvents] at h
    injection h with h
    subst h
    exact hi
  | cons e rest ih =>
    simp only [runEvents] at h
    cases hst : stepFn s e with
    | none => simp [hst] at h
    | some s1 =>
      simp only [hst] at h
      exact ih (sysInv_step hi hst) h

theorem reachable_sysInv {s : SysState} (h : Reachable s) : SysInv s := by
  obtain ⟨evs, h⟩ := h
  exact sysInv_run sysInv_init h

theorem bwWriteFn_dead {bw : BufWriter} (b : Buf) (hd : bw.dead = true) :
    bwWriteFn bw b = ({ bw with incomingClosed := true }, (0, some errDeadWriter)) := by
  simp [bwWriteFn, hd]

theorem sinkRecvFn_received (bw : BufWriter) (b : Buf) :
    (sinkRecvFn bw b).received = bw.received := by
  unfold sinkRecvFn
  by_cases h : bw.buffered = [] <;> simp [h]
  split <;> simp

theorem sinkRecvFn_dead {bw : BufWriter} (b : Buf) (hd : bw.dead = true) :
    (sinkRecvFn bw b).dead = true := by
  unfold sinkRecvFn
  by_cases h : bw.buffered = [] <;> simp [h, hd]
  split <;> simp [hd]

theorem dead_step {s s2 : SysState} {e : Ev} {k : Nat} {bw : BufWriter}
    (hi : SysInv s) (h : stepFn s e = some s2) (hk : s.sinkPool.get? k = some bw)
    (hd : bw.dead = true) :
    ∃ bw2, s2.sinkPool.get? k = some bw2 ∧ bw2.dead = true ∧
      bw2.received = bw.received := by
  obtain ⟨h1, h2, h3⟩ := hi
  cases e with
  | callerWrite b =>
    simp only [stepFn, mwWrite] at h
    split at h
    · injection h with h
      subst h
      exact ⟨bw, hk, hd, rfl⟩
    · cases h
  | takeMsg =>
    simp only [stepFn] at h
    split at h
    next b rest hpc hq =>
      injection h with h
      subst h
      exact ⟨bw, hk, hd, rfl⟩
    next =>
      cases h
  | addWriter =>
    simp only [stepFn] at h
    split at h
    next hpc =>
      injection h with h
      subst h
      exact ⟨bw, by simpa using (get?_append_left (get?_some_lt hk)).trans hk, hd, rfl⟩
    next =>
      cases h
  | bcastStep =>
    simp only [stepFn] at h
    split at h
    next b i d hpc =>
      split at h
      next k2 hw =>
        split at h
        next bw2 hk2 =>
          split at h
          next hdead =>
            injection h with h
            subst h
            by_cases hkk : k2 = k
            · subst hkk
              rw [hk] at hk2
              injection hk2 with hk2
              subst hk2
              refine ⟨(bwWriteFn bw b).1, ?_, ?_, ?_⟩
              · simpa using get?_set_self_lt _ (get?_some_lt hk)
              · simp [bwWriteFn, hd]
              · simp [bwWriteFn, hd]
            · exact ⟨bw, by simpa using (get?_set_ne _ hkk).trans hk, hd, rfl⟩
          next hndead =>
            split at h
            · injection h with h
              subst h
              by_cases hkk : k2 = k
              · subst hkk
                rw [hk] at hk2
                injection hk2 with hk2
                subst hk2
                exact absurd hd hndead
              · exact ⟨bw, by simpa using (get?_set_ne _ hkk).trans hk, hd, rfl⟩
            · cases h
        next =>
          cases h
      next =>
        cases h
    next =>
      cases h
  | bcastDone =>
    simp only [stepFn] at h
    split at h
    next b i d hpc =>
      split at h
      next hlen =>
        split at h
        next hdt =>
          injection h with h
          subst h
          exact ⟨bw, hk, hd, rfl⟩
        next hdf =>
          injection h with h
          subst h
          exact ⟨bw, hk, hd, rfl⟩
      next =>
        cases h
    next =>
      cases h
  | sinkRecv k2 =>
    simp only [stepFn] at h
    split at h
    next bw2 hk2 =>
      split at h
      next b hin =>
        split at h
        · cases h
        · injection h with h
          subst h
          by_cases hkk : k2 = k
          · subst hkk
            rw [hk] at hk2
            injection hk2 with hk2
            subst hk2
            exact ⟨sinkRecvFn bw b,
              by simpa using get?_set_self_lt _ (get?_some_lt hk),
              sinkRecvFn_dead b hd, sinkRecvFn_received bw b⟩
          · exact ⟨bw, by simpa using (get?_set_ne _ hkk).trans hk, hd, rfl⟩
      next =>
        cases h
    next =>
      cases h
  | sinkRecvClosed k2 =>
    simp only [stepFn] at h
    split at h
    next bw2 hk2 =>
      split at h
      · injection h with h
        subst h
        by_cases hkk : k2 = k
        · subst hkk
          rw [hk] at hk2
          injection hk2 with hk2
          subst hk2
          exact ⟨{ bw with loopReturned := true },
            by simpa using get?_set_self_lt _ (get?_some_lt hk), hd, rfl⟩
        · exact ⟨bw, by simpa using (get?_set_ne _ hkk).trans hk, hd, rfl⟩
      · cases h
    next =>
      cases h
  | sinkDeliver k2 ok =>
    simp only [stepFn] at h
    split at h
    next bw2 hk2 =>
      split at h
      next m hm =>
        split at h
        next hcond =>
          injection h with h
          subst h
          by_cases hkk : k2 = k
          · subst hkk
            rw [hk] at hk2
            injection hk2 with hk2
            subst hk2
            obtain ⟨hc1, hc2, hc3, hc4⟩ := hcond
            rcases (h3 _ _ hk).2.2.2 hd with hx | hx
            · rw [hc2] at hx
              cases hx
            · rw [hc3] at hx
              cases hx
          · exact ⟨bw, by simpa using (get?_set_ne _ hkk).trans hk, hd, rfl⟩
        next =>
          cases h
      next =>
        cases h
    next =>
      cases h
  | sinkWgExit k2 =>
    simp only [stepFn] at h
    split at h
    next bw2 hk2 =>
      split at h
      · injection h with h
        subst h
        by_cases hkk : k2 = k
        · subst hkk
          rw [hk] at hk2
          injection hk2 with hk2
          subst hk2
          exact ⟨{ bw with wg := .exited },
            by simpa using get?_set_self_lt _ (get?_some_lt hk), hd, rfl⟩
        · exact ⟨bw, by simpa using (get?_set_ne _ hkk).trans hk, hd, rfl⟩
      · cases h
    next =>
      cases h

theorem dead_run {s s2 : SysState} (hi : SysInv s) {evs : List Ev}
    (h : runEvents s evs = some s2) {k : Nat} {bw : BufWriter}
    (hk : s.sinkPool.get? k = some bw) (hd : bw.dead = true) :
    ∃ bw2, s2.sinkPool.get? k = some bw2 ∧ bw2.dead = true ∧
      bw2.received = bw.received := by
  induction evs generalizing s bw with
  | nil =>
    simp only [runEvents] at h
    injection h with h
    subst h
    exact ⟨bw, hk, hd, rfl⟩
  | cons e rest ih =>
    simp only [runEvents] at h
    cases hst : stepFn s e with
    | none => simp [hst] at h
    | some s1 =>
      simp only [hst] at h
      obtain ⟨bw1, hk1, hd1, hr1⟩ := dead_step hi hst hk hd
      obtain ⟨bw2, hk2, hd2, hr2⟩ := ih (sysInv_step hi hst) h hk1 hd1
      exact ⟨bw2, hk2, hd2, hr2.trans hr1⟩

theorem bcast_evicts_dead {s : SysState} {b : Buf} {i : Nat} {d : Bool} {k : Nat}
    {bw : BufWriter} (hpc : s.pc = .bcast b i d) (hw : s.writers.get? i = some (some k))
    (hk : s.sinkPool.get? k = some bw) (hd : bw.dead = true) :
    stepFn s .bcastStep = some { s with
      sinkPool := s.sinkPool.set k (bwWriteFn bw b).1
      writers := s.writers.set i none
      pc := .bcast b (i + 1) true } := by
  rcases s with ⟨mq, ws, pool, act, pc⟩
  simp only at hpc hw hk
  subst hpc
  simp only [stepFn, hw, hk, hd, if_true]

theorem reachable_buffered_empty {s : SysState} (h : Reachable s) {k : Nat}
    {bw : BufWriter} (hk : s.sinkPool.get? k = some bw) :
    bw.buffered = [] ∧ bw.bufsize = 0 :=
  ⟨((reachable_sysInv h).2.2 _ _ hk).1, ((reachable_sysInv h).2.2 _ _ hk).2.1⟩

/-- Modelled from the spec: the multiplexer core set and the per-reader
stream behind `PipeReader` (`pipe.go` is in the source tree, but the
`lockedMultiCore` it manipulates and the `io.Pipe` stream are not --
only the multiplexer's tests are).  `cores` is the set of registered
core identities (`loggerCore`), `buffered` the bytes sitting in the
reader's in-memory stream, `wClosed` whether the stream's write end has
been closed. -/
structure PipeSys where
  cores : List Nat
  buffered : List Nat
  wClosed : Bool
deriving DecidableEq, Repr

/-- The `PipeReader` struct from `pipe.go`: the core it registered on
construction (`p.core`, nil when absent). -/
structure PipeRd where
  core : Option Nat
deriving DecidableEq, Repr

/-- Modelled from the spec: `lockedMultiCore.DeleteCore` removes a core
from the multiplexer's set (per the tests in `core_test.go`, writes after
deletion no longer reach the deleted core). -/
def deleteCore (cores : List Nat) (c : Nat) : List Nat :=
  cores.filter (fun x => x ≠ c)

/-- `PipeReader.Close` from `pipe.go`: if the reader holds a core,
unregister it from `loggerCore` via `DeleteCore`; then close the stream's
write end (`io.PipeWriter.Close`, which always returns nil, also on a
second close). -/
def prClose (s : PipeSys) (p : PipeRd) : PipeSys × Option String :=
  let s1 :=
    match p.core with
    | some c => { s with cores := deleteCore s.cores c }
    | none => s
  ({ s1 with wClosed := true }, none)

/-- Result of one read from the reader's stream. -/
inductive ReadRes where
  | bytes (b : Nat)
  | endOfStream
  | wouldBlock
deriving DecidableEq, Repr

/-- Modelled from the spec: `PipeReader.Read` over the in-memory stream:
buffered bytes are returned first; after the write end is closed and the
buffer drains, end-of-stream is signalled; otherwise the read blocks. -/
def prRead (s : PipeSys) : ReadRes × PipeSys :=
  match s.buffered with
  | b :: rest => (.bytes b, { s with buffered := rest })
  | [] => if s.wClosed then (.endOfStream, s) else (.wouldBlock, s)

/-- Modelled from the spec: a delivery of encoded bytes to the reader's
registered core: it lands in the reader's stream only while the core is
still registered on the multiplexer and the stream is open. -/
def coreEmit (s : PipeSys) (p : PipeRd) (bs : List Nat) : PipeSys :=
  match p.core with
  | some c =>
    if c ∈ s.cores ∧ s.wClosed = false then
      { s with buffered := s.buffered ++ bs }
    else
      s
  | none => s

theorem deleteCore_idem (cores : List Nat) (c : Nat) :
    deleteCore (deleteCore cores c) c = deleteCore cores c := by
  unfold deleteCore
  induction cores with
  | nil => rfl
  | cons x rest ih =>
    by_cases hx : x = c <;> simp [hx, ih]

theorem mem_deleteCore_self (cores : List Nat) (c : Nat) : c ∉ deleteCore cores c := by
  unfold deleteCore
  simp

/-- C7: `GetLogLevel` returns the default level's string when the name is
`"*"` or empty; the subsystem's current level string when a level cell
exists for the name; and the `ErrNoSuchLogger` error, mutating no state,
when the name was never registered and never had a level set. -/
theorem getLogLevel_cases (st : LogState) (name : String) :
    ((name = "*" ∨ name = "") →
      GetLogLevel st name = (st, .ok (levelName st.defaultLevel))) ∧
    (∀ lvl, ¬(name = "*" ∨ name = "") → assocGet st.levels name = some lvl →
      GetLogLevel st name = (st, .ok (levelName lvl))) ∧
    (¬(name = "*" ∨ name = "") → assocGet st.levels name = none →
      GetLogLevel st name = (st, .error errNoSuchLogger)) := by
  refine ⟨?_, ?_, ?_⟩
  · intro hw
    simp [GetLogLevel, hw]
  · intro lvl hw hl
    simp [GetLogLevel, hw, hl]
  · intro hw hl
    simp [GetLogLevel, hw, hl]

theorem getLogLevel_cases_witness :
    GetLogLevel ⟨.error, [("app", .debug)], []⟩ "*" =
      (⟨.error, [("app", .debug)], []⟩, .ok "error") ∧
    GetLogLevel ⟨.error, [("app", .debug)], []⟩ "app" =
      (⟨.error, [("app", .debug)], []⟩, .ok "debug") ∧
    GetLogLevel ⟨.error, [("app", .debug)], []⟩ "ghost" =
      (⟨.error, [("app", .debug)], []⟩, .error errNoSuchLogger) :=
  ⟨(getLogLevel_cases _ _).1 (Or.inl rfl),
   (getLogLevel_cases _ _).2.1 .debug (by decide) (by decide),
   (getLogLevel_cases _ _).2.2 (by decide) (by decide)⟩

/-- C4: for a subsystem never registered and a valid level string,
`SetLogLevel` succeeds and remembers the level cell (auto-vivification),
and a later `getLogger` yields that level -- not the default -- as the
logger's effective level. -/
theorem setLogLevel_autovivifies (st : LogState) (name level : String) (lvl : LogLevel)
    (hv : levelFromString level = .ok lvl) (h1 : name ≠ "*") (h2 : name ≠ "")
    (hreg : assocGet st.levels name = none) (hlog : name ∉ st.loggers) :
    (SetLogLevel st name level).2 = none ∧
    assocGet (SetLogLevel st name level).1.levels name = some lvl ∧
    (getLogger (SetLogLevel st name level).1 name).2 = lvl := by
  have hst : SetLogLevel st name level =
      ({ st with levels := assocSet st.levels name lvl }, none) := by
    simp [SetLogLevel, hv, h1, h2]
  refine ⟨by rw [hst], ?_, ?_⟩
  · rw [hst]
    exact assocGet_assocSet_self _ _ _
  · rw [hst]
    simp [getLogger, hlog, assocGet_assocSet_self]

theorem setLogLevel_autovivifies_witness :
    (SetLogLevel ⟨.error, [], []⟩ "newsub" "debug").2 = none ∧
    assocGet (SetLogLevel ⟨.error, [], []⟩ "newsub" "debug").1.levels "newsub" =
      some .debug ∧
    (getLogger (SetLogLevel ⟨.error, [], []⟩ "newsub" "debug").1 "newsub").2 = .debug :=
  setLogLevel_autovivifies ⟨.error, [], []⟩ "newsub" "debug" .debug (by rfl)
    (by decide) (by decide) (by decide) (by decide)

/-- C5: `SetLogLevel` with name `"*"` or `""` and a valid level string
succeeds and applies the level to the default level and to every
currently-registered subsystem cell, so `GetLogLevel "*"` and
`GetLogLevel` of every previously-registered subsystem return it. -/
theorem setLogLevel_wildcard (st : LogState) (name level : String) (lvl : LogLevel)
    (hn : name = "*" ∨ name = "") (hv : levelFromString level = .ok lvl) :
    (SetLogLevel st name level).2 = none ∧
    (SetLogLevel st name level).1 = setAllLoggers st lvl ∧
    (GetLogLevel (SetLogLevel st name level).1 "*").2 = .ok (levelName lvl) ∧
    (∀ sub lv0, (sub, lv0) ∈ st.levels →
      (GetLogLevel (SetLogLevel st name level).1 sub).2 = .ok (levelName lvl)) := by
  have hst : SetLogLevel st name level = (setAllLoggers st lvl, none) := by
    simp [SetLogLevel, hv, hn]
  refine ⟨by rw [hst], by rw [hst], ?_, ?_⟩
  · rw [hst]
    simp [GetLogLevel, setAllLoggers]
  · intro sub lv0 hmem
    rw [hst]
    by_cases hsub : sub = "*" ∨ sub = ""
    · simp [GetLogLevel, hsub, setAllLoggers]
    · obtain ⟨w, hw⟩ := assocGet_mem st.levels sub lv0 hmem
      have hget : assocGet (setAllLoggers st lvl).levels sub = some lvl := by
        simp [setAllLoggers, assocGet_map_const, hw]
      simp [GetLogLevel, hsub, hget]

theorem setLogLevel_wildcard_witness :
    (SetLogLevel ⟨.error, [("a", .info), ("b", .warn)], []⟩ "*" "debug").2 = none ∧
    (GetLogLevel (SetLogLevel ⟨.error, [("a", .info), ("b", .warn)], []⟩ "*" "debug").1
      "*").2 = .ok "debug" ∧
    (GetLogLevel (SetLogLevel ⟨.error, [("a", .info), ("b", .warn)], []⟩ "*" "debug").1
      "a").2 = .ok "debug" := by
  obtain ⟨w1, w2, w3, w4⟩ := setLogLevel_wildcard ⟨.error, [("a", .info), ("b", .warn)], []⟩
    "*" "debug" .debug (Or.inl rfl) (by rfl)
  exact ⟨w1, w3, w4 "a" .info (by decide)⟩

/-- C8: the map returned by `GetAllLogLevels` always carries the `"*"` key
holding the default level's string, and is a fresh copy: any sequence of
caller mutations of the returned map leaves every pre-existing heap
object untouched and leaves the result of a subsequent `GetAllLogLevels`
call unchanged. -/
theorem getAllLogLevels_snapshot (st : LogState) (h : Heap)
    (muts : List (String × String)) :
    strMapGet ((GetAllLogLevels st h).1.get (GetAllLogLevels st h).2) "*" =
      some (levelName st.defaultLevel) ∧
    (∀ r, r < h.objs.length →
      (applyMuts (GetAllLogLevels st h).1 (GetAllLogLevels st h).2 muts).get r =
        h.get r) ∧
    (GetAllLogLevels st
        (applyMuts (GetAllLogLevels st h).1 (GetAllLogLevels st h).2 muts)).1.get
      (GetAllLogLevels st
        (applyMuts (GetAllLogLevels st h).1 (GetAllLogLevels st h).2 muts)).2 =
      (GetAllLogLevels st h).1.get (GetAllLogLevels st h).2 := by
  have key : ∀ hh : Heap, (GetAllLogLevels st hh).1.get (GetAllLogLevels st hh).2 =
      ⟨("*", levelName st.defaultLevel) ::
        st.levels.map (fun p => (p.1, levelName p.2))⟩ :=
    fun hh => heapGet_alloc hh _
  refine ⟨?_, ?_, ?_⟩
  · rw [key]
    simp [strMapGet, strEntriesGet]
  · intro r hr
    have hne : (GetAllLogLevels st h).2 ≠ r := (Nat.ne_of_lt hr).symm
    have hstep := heapGet_applyMuts_ne (GetAllLogLevels st h).1
      (GetAllLogLevels st h).2 r muts hne
    exact hstep.trans (heapGet_alloc_lt h _ r hr)
  · rw [key, key]

theorem getAllLogLevels_snapshot_witness :
    (applyMuts (GetAllLogLevels ⟨.warn, [("a", .info)], []⟩ ⟨[⟨[("x", "y")]⟩]⟩).1
      (GetAllLogLevels ⟨.warn, [("a", .info)], []⟩ ⟨[⟨[("x", "y")]⟩]⟩).2
      [("*", "debug"), ("newkey", "info")]).get 0 =
      Heap.get ⟨[⟨[("x", "y")]⟩]⟩ 0 :=
  (getAllLogLevels_snapshot ⟨.warn, [("a", .info)], []⟩ ⟨[⟨[("x", "y")]⟩]⟩
    [("*", "debug"), ("newkey", "info")]).2.1 0 (by decide)

/-- C1: the global-ordering / exactly-once claim fails on `writer.go`.
With one attached sink, the caller writes buffer 1 then buffer 2; the
sink's loop takes buffer 1 as `nextMsg`, and -- because the receive arm
only tests `len(buffered) == 0`, which always holds -- taking buffer 2
overwrites `nextMsg`.  The underlying writer then receives buffer 2
having never received buffer 1, and the final state (identical to a
fresh `bufWriter` except for `received = [buffer 2]`) holds no trace of
buffer 1: it was lost, though the sink was never evicted. -/
theorem mirror_drops_pending_buffer :
    runEvents initSys
      [.addWriter, .callerWrite ⟨1, 5⟩, .callerWrite ⟨2, 5⟩, .takeMsg, .bcastStep,
       .bcastDone, .sinkRecv 0, .takeMsg, .bcastStep, .bcastDone, .sinkRecv 0,
       .sinkDeliver 0 true] =
      some { initSys with
        writers := [some 0]
        sinkPool := [{ bwInit with received := [⟨2, 5⟩] }]
        active := true } := by decide

/-- C2: the overflow-eviction claim fails on `writer.go`.  With one
attached sink whose underlying writer never completes a write, the caller
ingests three 300000-byte buffers -- 900000 bytes, well past
`MaxWriterBuffer` -- yet the sink ends alive (`dead = false`), its
underlying writer never closed, still attached with empty `buffered` and
zero `bufsize`: the buffering/eviction branch is unreachable because the
receive arm's `len(buffered) == 0` test always holds, so each new buffer
merely replaces `nextMsg`. -/
theorem mirror_overflow_never_evicts :
    (runEvents initSys
      [.addWriter, .callerWrite ⟨1, 300000⟩, .callerWrite ⟨2, 300000⟩,
       .callerWrite ⟨3, 300000⟩, .takeMsg, .bcastStep, .bcastDone, .sinkRecv 0,
       .takeMsg, .bcastStep, .bcastDone, .sinkRecv 0, .takeMsg, .bcastStep,
       .bcastDone, .sinkRecv 0] =
      some { initSys with
        writers := [some 0]
        sinkPool := [{ bwInit with nextMsg := some ⟨3, 300000⟩, sendSet := true }]
        active := true }) ∧
    300000 + 300000 + 300000 > maxWriterBuffer := by decide

/-- A run that leaves the single attached sink dead: its underlying write
of buffer `⟨7, 4⟩` fails, so its writer goroutine calls `die`. -/
def deadTrace : List Ev :=
  [.addWriter, .callerWrite ⟨7, 4⟩, .takeMsg, .bcastStep, .bcastDone, .sinkRecv 0,
   .sinkDeliver 0 false]

/-- The state reached by `deadTrace`. -/
def deadSys : SysState := (runEvents initSys deadTrace).getD initSys

/-- The dead sink of `deadSys`. -/
def deadBw : BufWriter := (deadSys.sinkPool.get? 0).getD bwInit

/-- `deadTrace` continued with another caller write, stopping after the
`logRoutine` has taken the new message, mid-broadcast. -/
def deadBcastTrace : List Ev := deadTrace ++ [.callerWrite ⟨8, 2⟩, .takeMsg]

/-- The state reached by `deadBcastTrace`. -/
def deadBcastSys : SysState := (runEvents initSys deadBcastTrace).getD initSys

/-- The dead sink of `deadBcastSys`. -/
def deadBcastBw : BufWriter := (deadBcastSys.sinkPool.get? 0).getD bwInit

/-- C3: `MirrorWriter.Write` returns `(len(b), nil)` for every buffer and
every state -- a sink write failure or overflow never reaches the caller
-- and a sink whose `bufWriter` has died is instead nilled out of the
writer set by the broadcast that visits it. -/
theorem mirrorWrite_returns_len_nil (s : SysState) (b : Buf) :
    mwWrite s b = ({ s with msgQueue := s.msgQueue ++ [b] }, (b.size, none)) ∧
    (∀ b2 i d k bw, s.pc = .bcast b2 i d → s.writers.get? i = some (some k) →
      s.sinkPool.get? k = some bw → bw.dead = true →
      ∃ s2, stepFn s .bcastStep = some s2 ∧ s2.writers.get? i = some none ∧
        s2.pc = .bcast b2 (i + 1) true) := by
  refine ⟨rfl, ?_⟩
  intro b2 i d k bw hpc hw hk hd
  refine ⟨_, bcast_evicts_dead hpc hw hk hd, ?_, rfl⟩
  exact get?_set_self_lt _ (get?_some_lt hw)

theorem mirrorWrite_returns_len_nil_witness :
    mwWrite deadBcastSys ⟨9, 3⟩ =
      ({ deadBcastSys with msgQueue := deadBcastSys.msgQueue ++ [⟨9, 3⟩] }, (3, none)) ∧
    (∃ s2, stepFn deadBcastSys .bcastStep = some s2 ∧
      s2.writers.get? 0 = some none ∧ s2.pc = .bcast ⟨8, 2⟩ 1 true) :=
  ⟨(mirrorWrite_returns_len_nil deadBcastSys ⟨9, 3⟩).1,
   (mirrorWrite_returns_len_nil deadBcastSys ⟨8, 2⟩).2 ⟨8, 2⟩ 0 false 0 deadBcastBw
     (by decide) (by decide) (by decide) (by decide)⟩

/-- C6: at every reachable state of the mirror-writer system, `Active`
(the `active` flag) is true iff at least one writer slot is attached; a
freshly constructed `MirrorWriter` has no writers and reports false. -/
theorem active_iff_attached (s : SysState) (hr : Reachable s) :
    (s.active = true ↔ s.writers ≠ []) ∧
    initSys.active = false ∧ initSys.writers = [] :=
  ⟨(reachable_sysInv hr).1, rfl, rfl⟩

theorem active_iff_attached_witness :
    (deadSys.active = true ↔ deadSys.writers ≠ []) ∧
    initSys.active = false ∧ initSys.writers = [] :=
  active_iff_attached deadSys ⟨deadTrace, by decide⟩

/-- C10: in every reachable state, a dead `bufWriter` has its underlying
writer closed; `bufWriter.Write` on it returns `(0, errDeadWriter)`; along
every continuation of the run it stays dead and its underlying writer
receives no further buffer (`received` is frozen); and the broadcast that
visits it nils it out of the writer set. -/
theorem dead_writer_stays_dead (s : SysState) (hr : Reachable s) (k : Nat)
    (bw : BufWriter) (hk : s.sinkPool.get? k = some bw) (hd : bw.dead = true) :
    bw.writerClosed = true ∧
    (∀ b, bwWriteFn bw b = ({ bw with incomingClosed := true }, (0, some errDeadWriter))) ∧
    (∀ evs s2 bw2, runEvents s evs = some s2 → s2.sinkPool.get? k = some bw2 →
      bw2.received = bw.received ∧ bw2.dead = true) ∧
    (∀ b2 i d, s.pc = .bcast b2 i d → s.writers.get? i = some (some k) →
      ∃ s2, stepFn s .bcastStep = some s2 ∧ s2.writers.get? i = some none) := by
  have hinv := reachable_sysInv hr
  refine ⟨(hinv.2.2 _ _ hk).2.2.1 hd, fun b => bwWriteFn_dead b hd, ?_, ?_⟩
  · intro evs s2 bw2 hrun hk2
    obtain ⟨bw3, hk3, hd3, hr3⟩ := dead_run hinv hrun hk hd
    rw [hk2] at hk3
    injection hk3 with hk3
    subst hk3
    exact ⟨hr3, hd3⟩
  · intro b2 i d hpc hw
    exact ⟨_, bcast_evicts_dead hpc hw hk hd, get?_set_self_lt _ (get?_some_lt hw)⟩

theorem dead_writer_stays_dead_witness :
    deadBw.writerClosed = true ∧
    bwWriteFn deadBw ⟨9, 1⟩ =
      ({ deadBw with incomingClosed := true }, (0, some errDeadWriter)) := by
  have h := dead_writer_stays_dead deadSys ⟨deadTrace, by decide⟩ 0 deadBw
    (by decide) (by decide)
  exact ⟨h.1, h.2.1 ⟨9, 1⟩⟩

/-- C9: `PipeReader.Close` unregisters the reader's core from the
multiplexer and closes the stream; it returns no error, a second close
returns no error and changes nothing further; bytes already buffered at
close stay readable down to end-of-stream, and no new bytes arrive after
close. -/
theorem pipeReader_close_idempotent (s : PipeSys) (p : PipeRd) :
    (prClose s p).2 = none ∧
    (prClose (prClose s p).1 p).2 = none ∧
    (prClose (prClose s p).1 p).1 = (prClose s p).1 ∧
    (∀ c, p.core = some c → c ∉ (prClose s p).1.cores) ∧
    (prClose s p).1.buffered = s.buffered ∧
    (∀ bs, coreEmit (prClose s p).1 p bs = (prClose s p).1) ∧
    (∀ b rest, (prClose s p).1.buffered = b :: rest →
      (prRead (prClose s p).1).1 = .bytes b) ∧
    ((prClose s p).1.buffered = [] → (prRead (prClose s p).1).1 = .endOfStream) := by
  cases hp : p.core with
  | none =>
    refine ⟨rfl, rfl, ?_, ?_, ?_, ?_, ?_, ?_⟩
    · simp [prClose, hp]
    · intro c hc
      cases hc
    · simp [prClose, hp]
    · intro bs
      simp [coreEmit, prClose, hp]
    · intro b rest hb
      simp only [prClose, hp] at hb ⊢
      simp [prRead, hb]
    · intro hb
      simp only [prClose, hp] at hb ⊢
      simp [prRead, hb]
  | some c0 =>
    refine ⟨rfl, rfl, ?_, ?_, ?_, ?_, ?_, ?_⟩
    · simp [prClose, hp, deleteCore_idem]
    · intro c hc
      injection hc with hc
      subst hc
      simp [prClose, hp]
      exact mem_deleteCore_self s.cores c0
    · simp [prClose, hp]
    · intro bs
      simp [coreEmit, prClose, hp]
    · intro b rest hb
      simp only [prClose, hp] at hb ⊢
      simp [prRead, hb]
    · intro hb
      simp only [prClose, hp] at hb ⊢
      simp [prRead, hb]

theorem pipeReader_close_idempotent_witness :
    (5 ∉ (prClose ⟨[5], [9], false⟩ ⟨some 5⟩).1.cores) ∧
    (prRead (prClose ⟨[5], [9], false⟩ ⟨some 5⟩).1).1 = .bytes 9 ∧
    (prClose (prClose ⟨[5], [9], false⟩ ⟨some 5⟩).1 ⟨some 5⟩).2 = none := by
  obtain ⟨w1, w2, w3, w4, w5, w6, w7, w8⟩ :=
    pipeReader_close_idempotent ⟨[5], [9], false⟩ ⟨some 5⟩
  exact ⟨w4 5 rfl, w7 9 [] (by decide), w2⟩
